import Mathlib

/-!
Shallow embedding of the configlock repository (Go) in Lean 4.

Modelled components:
* `internal/config/config.go` — schedule evaluation (`IsWithinWorkHours`,
  `isWithinCronSchedule`), temporary exclusions (`IsTemporarilyExcluded`,
  `AddTempExclude`, `CleanExpiredExcludes`).
* the daemon (`daemon.go`) — `enforce`, `lockPath`, `gracefulShutdown`,
  `handleFileEvent` and the watcher-event case of `Start`.
* `internal/locker/locker.go` — `Lock`'s per-entry dispatch and
  `isLockedLinux`'s lsattr-output handling.

Conventions:
* Instants are `Int` seconds since the Unix epoch (Go `time.Time` at second
  granularity, location fixed to UTC).  Calendar fields are derived:
  1970-01-01 is a Thursday, so `weekdayOf t = (t / 86400 + 4) % 7` with Go's
  numbering (Sunday = 0 ... Saturday = 6).
* `time.Parse(time.RFC3339, s)` from the Go standard library is kept abstract
  as a parameter `parseTime : String → Option Int` (`none` = parse error); the
  cron library's `parser.Parse` is a parameter
  `parseCron : String → Option (Int → Int)` returning the schedule's `Next`
  function.  Theorems quantify over these parameters, so they hold for the
  real library implementations.
* The filesystem is abstracted to boolean oracles (`fsExists`, `lockOk`,
  `unlockOk`) and a per-path lock bit `locked : String → Bool`; a successful
  `locker.Lock p` (primary `chattr`/`chflags` or its chmod fallback) sets the
  bit of `p`, and a failed one leaves it unchanged, mirroring the daemon-level
  view in which `is_locked` reports that bit.
-/

namespace Configlock

/-- Go `strings.HasPrefix(s, p)` over the character lists (paths here are
ASCII, where Go's byte view and the character view agree). -/
def hasPre (s p : String) : Bool :=
  p.data.isPrefixOf s.data

/-- A decimal digit byte, as Go's time parser recognises it. -/
def isDigitChar (c : Char) : Bool :=
  48 ≤ c.toNat && c.toNat ≤ 57

/-- Numeric value of a digit character. -/
def digitVal (c : Char) : Nat :=
  c.toNat - 48

/-- Second half of `time.Parse("15:04", s)`: after the hour has been read,
expect `:`, exactly two minute digits, end of input, and the Go range checks
(hour 0–23, minute 0–59). -/
def finishClock (h : Nat) : List Char → Option (Nat × Nat)
  | ':' :: m1 :: m2 :: [] =>
    if isDigitChar m1 && isDigitChar m2 then
      let m := 10 * digitVal m1 + digitVal m2
      if h ≤ 23 && m ≤ 59 then some (h, m) else none
    else none
  | _ => none

/-- `time.Parse("15:04", s)` on the characters of `s`: one or two hour digits
(two when the second character is a digit), then `finishClock`. -/
def parseClockChars : List Char → Option (Nat × Nat)
  | c1 :: c2 :: rest =>
    if isDigitChar c1 then
      if isDigitChar c2 then
        finishClock (10 * digitVal c1 + digitVal c2) rest
      else
        finishClock (digitVal c1) (c2 :: rest)
    else none
  | _ => none

/-- Embedding of Go `time.Parse("15:04", s)`: `some (hour, minute)` on
success, `none` on any parse or range error. -/
def parseClock (s : String) : Option (Nat × Nat) :=
  parseClockChars s.data

/-- Go `now.Weekday()` for an epoch instant (UTC): Sunday = 0 ... Saturday = 6. -/
def weekdayOf (t : Int) : Int :=
  (t.ediv 86400 + 4).emod 7

/-- Go `now.Hour()` (UTC). -/
def hourOf (t : Int) : Int :=
  (t.emod 86400).ediv 3600

/-- Go `now.Minute()` (UTC). -/
def minuteOf (t : Int) : Int :=
  ((t.emod 86400).emod 3600).ediv 60

/-- The comparison key `time.Date(0, 1, 1, now.Hour(), now.Minute(), 0, 0, UTC)`
used by `IsWithinWorkHours`, reduced to minutes since midnight. -/
def minutesOfDay (t : Int) : Int :=
  hourOf t * 60 + minuteOf t

/-- `time.Date(now.Year(), …, now.Hour(), now.Minute(), 0, 0, loc)`: the
instant rounded down to the start of its minute. -/
def roundToMinute (t : Int) : Int :=
  t - t.emod 60

/-- The fields of the Go `Config` struct that the modelled code reads
(`config.go` lines 18–26).  `TempExcludes` is a key-unique association list
standing in for the Go map. -/
structure Config where
  lockedPaths : List String
  startTime : String
  endTime : String
  cronSchedule : String
  tempDuration : Int
  tempExcludes : List (String × String)

/-- Go map read `m[path]`. -/
def mapLookup (k : String) : List (String × String) → Option String
  | [] => none
  | e :: rest => if e.1 = k then some e.2 else mapLookup k rest

/-- Go map write `m[path] = v` (overwrites an existing entry). -/
def mapInsert (k v : String) : List (String × String) → List (String × String)
  | [] => [(k, v)]
  | e :: rest =>
    if e.1 = k then (k, v) :: rest else e :: mapInsert k v rest

/-- `Config.IsTemporarilyExcluded` (config.go lines 177–192): false when the
path has no entry or the stored expiry string does not parse; otherwise
`expiry.After(now)`. -/
def isTemporarilyExcluded (parseTime : String → Option Int) (now : Int)
    (m : List (String × String)) (path : String) : Bool :=
  match mapLookup path m with
  | none => false
  | some expiryStr =>
    match parseTime expiryStr with
    | none => false
    | some expiry => decide (now < expiry)

/-- `Config.AddTempExclude` (config.go lines 142–148): store
`time.Now().Add(duration minutes)` formatted by `fmtTime` (the RFC3339
formatter) under `path`. -/
def addTempExclude (fmtTime : Int → String) (now : Int)
    (m : List (String × String)) (path : String) (duration : Int) :
    List (String × String) :=
  mapInsert path (fmtTime (now + duration * 60)) m

/-- `Config.CleanExpiredExcludes` (config.go lines 160–174): delete every
entry whose expiry fails to parse or satisfies `expiry.Before(now)`; the
boolean is Go's `cleaned` flag.  Go map iteration with in-loop deletion visits
every entry once, which the list recursion mirrors. -/
def cleanExpiredExcludes (parseTime : String → Option Int) (now : Int) :
    List (String × String) → Bool × List (String × String)
  | [] => (false, [])
  | e :: rest =>
    let r := cleanExpiredExcludes parseTime now rest
    match parseTime e.2 with
    | none => (true, r.2)
    | some expiry =>
      if expiry < now then (true, r.2) else (r.1, e :: r.2)

/-- `Config.isWithinCronSchedule` (config.go lines 233–251): parse the cron
expression (failure ⇒ false), round `now` down to the minute, take the
schedule's next trigger from one minute earlier, and report
`!nextTrigger.After(currentMinute)`. -/
def isWithinCronSchedule (parseCron : String → Option (Int → Int))
    (expr : String) (now : Int) : Bool :=
  match parseCron expr with
  | none => false
  | some next =>
    let currentMinute := roundToMinute now
    let oneMinuteAgo := currentMinute - 60
    let nextTrigger := next oneMinuteAgo
    !(decide (currentMinute < nextTrigger))

/-- `Config.IsWithinWorkHours` (config.go lines 196–228): cron branch when
`CronSchedule` is non-empty; otherwise weekend check, parse of the two time
strings (failure ⇒ false), then `start ≤ current < end` on minutes of the
day. -/
def isWithinWorkHours (parseCron : String → Option (Int → Int))
    (c : Config) (now : Int) : Bool :=
  if c.cronSchedule ≠ "" then
    isWithinCronSchedule parseCron c.cronSchedule now
  else if weekdayOf now = 6 ∨ weekdayOf now = 0 then
    false
  else
    match parseClock c.startTime with
    | none => false
    | some st =>
      match parseClock c.endTime with
      | none => false
      | some en =>
        let cur := minutesOfDay now
        decide ((st.1 * 60 + st.2 : Int) ≤ cur) &&
          decide (cur < (en.1 * 60 + en.2 : Int))

/-- Concrete stand-in for an RFC3339 timestamp codec, used only to
instantiate witnesses: the timestamp is written as a plain decimal second
count.  A non-digit string (such as a corrupted expiry value) fails to parse,
exactly as `time.Parse(time.RFC3339, ·)` fails on it. -/
def decToIntAux : List Char → Nat → Nat
  | [], acc => acc
  | c :: cs, acc => decToIntAux cs (10 * acc + digitVal c)

/-- Parse of the stand-in decimal timestamp format. -/
def decToInt (s : String) : Option Int :=
  match s.data with
  | [] => none
  | cs => if cs.all isDigitChar then some (Int.ofNat (decToIntAux cs 0)) else none

/-- The daemon's environment: the abstracted filesystem and library
collaborators, the current instant, and configlock's own config locations
(`config.GetConfigDir` / `config.GetConfigPath`). -/
structure DaemonEnv where
  fsExists : String → Bool
  lockOk : String → Bool
  unlockOk : String → Bool
  parseTime : String → Option Int
  parseCron : String → Option (Int → Int)
  now : Int
  configDir : String
  configPath : String

/-- Point update of the per-path lock bit. -/
def setLock (locked : String → Bool) (p : String) (b : Bool) :
    String → Bool :=
  fun q => if q = p then b else locked q

/-- Effect of `locker.Lock p` on the lock state: the path must exist and the
primary mechanism or its chmod fallback must succeed (`lockOk`), in which
case the path's lock bit is set; otherwise `Lock` returns an error and the
state is unchanged. -/
def lockerLock (env : DaemonEnv) (locked : String → Bool) (p : String) :
    String → Bool :=
  if env.fsExists p && env.lockOk p then setLock locked p true else locked

/-- Effect of `locker.Unlock p`, dually: success clears the path's lock bit,
a missing path or a failed primitive-and-fallback leaves it set. -/
def lockerUnlock (env : DaemonEnv) (locked : String → Bool) (p : String) :
    String → Bool :=
  if env.fsExists p && env.unlockOk p then setLock locked p false else locked

/-- `Daemon.lockPath` (daemon.go lines 545–563): skip a path that no longer
exists, skip a temporarily excluded path, otherwise call `locker.Lock`
(failure is logged only). -/
def Daemon.lockPath (env : DaemonEnv) (cfg : Config)
    (locked : String → Bool) (p : String) : String → Bool :=
  if !(env.fsExists p) then locked
  else if isTemporarilyExcluded env.parseTime env.now cfg.tempExcludes p then
    locked
  else lockerLock env locked p

/-- The per-path loop of `Daemon.enforce` (daemon.go lines 492–504): skip
excluded paths, otherwise (after an informational `IsLocked` probe) call
`lockPath`. -/
def enforceLoop (env : DaemonEnv) (cfg : Config) :
    List String → (String → Bool) → String → Bool
  | [], locked => locked
  | p :: rest, locked =>
    let locked' :=
      if isTemporarilyExcluded env.parseTime env.now cfg.tempExcludes p then
        locked
      else Daemon.lockPath env cfg locked p
    enforceLoop env cfg rest locked'

/-- `Daemon.enforce` (daemon.go lines 473–505): reload the config (`none`
models a failed `config.Load`, on which `enforce` returns with the lock state
untouched), clean expired exclusions (the conditional `Save` does not affect
the lock state), then sweep every configured path. -/
def Daemon.enforce (env : DaemonEnv) (load : Option Config)
    (locked : String → Bool) : String → Bool :=
  match load with
  | none => locked
  | some cfg0 =>
    let cfg := { cfg0 with
      tempExcludes := (cleanExpiredExcludes env.parseTime env.now cfg0.tempExcludes).2 }
    enforceLoop env cfg cfg.lockedPaths locked

/-- The loop of `Daemon.gracefulShutdown` (daemon.go lines 387–392): call
`locker.Unlock` on every configured path in order, logging per-path failures
and continuing.  Returns the list of paths an unlock was attempted on and the
final lock state. -/
def shutdownLoop (env : DaemonEnv) :
    List String → (String → Bool) → List String × (String → Bool)
  | [], locked => ([], locked)
  | p :: rest, locked =>
    (p :: (shutdownLoop env rest (lockerUnlock env locked p)).1,
      (shutdownLoop env rest (lockerUnlock env locked p)).2)

/-- `Daemon.gracefulShutdown` (daemon.go lines 383–396). -/
def Daemon.gracefulShutdown (env : DaemonEnv) (cfg : Config)
    (locked : String → Bool) : List String × (String → Bool) :=
  shutdownLoop env cfg.lockedPaths locked

/-- The daemon state the `Start` loop owns: current config, the lock state of
the world, and the active flag. -/
structure DaemonState where
  cfg : Config
  locked : String → Bool
  active : Bool

/-- The `SIGTERM`/`SIGINT` case of `Daemon.Start`'s select loop (daemon.go
lines 321–337): `gracefulShutdown` is called without consulting `d.active`. -/
def Daemon.handleTermSignal (env : DaemonEnv) (st : DaemonState) :
    List String × (String → Bool) :=
  Daemon.gracefulShutdown env st.cfg st.locked

/-- The per-managed-path loop of `Daemon.handleFileEvent` (daemon.go lines
518–530): skip excluded paths; when the event path equals the managed path or
lies under it (`eventPath == lockedPath || strings.HasPrefix(eventPath,
lockedPath + "/")`), send the manual-change notification and re-apply the
lock.  Returns the notified paths and the final lock state. -/
def eventLoop (env : DaemonEnv) (cfg : Config) (eventPath : String) :
    List String → (String → Bool) → List String × (String → Bool)
  | [], locked => ([], locked)
  | lp :: rest, locked =>
    if isTemporarilyExcluded env.parseTime env.now cfg.tempExcludes lp then
      eventLoop env cfg eventPath rest locked
    else if eventPath == lp || hasPre eventPath (lp ++ "/") then
      (lp :: (eventLoop env cfg eventPath rest
          (Daemon.lockPath env cfg locked lp)).1,
        (eventLoop env cfg eventPath rest
          (Daemon.lockPath env cfg locked lp)).2)
    else eventLoop env cfg eventPath rest locked

/-- `Daemon.handleFileEvent` (daemon.go lines 508–531): events on
configlock's own config file, its config directory, or anything beneath that
directory are dropped; all other events are matched against every managed
path. -/
def Daemon.handleFileEvent (env : DaemonEnv) (cfg : Config)
    (locked : String → Bool) (eventPath : String) :
    List String × (String → Bool) :=
  if eventPath == env.configPath || eventPath == env.configDir ||
      hasPre eventPath (env.configDir ++ "/") then
    ([], locked)
  else eventLoop env cfg eventPath cfg.lockedPaths locked

/-- The watcher-event case of `Daemon.Start`'s select loop (daemon.go lines
339–350): an event arriving while the daemon is not active is ignored
(`continue`); otherwise it is handed to `handleFileEvent`. -/
def Daemon.onWatcherEvent (env : DaemonEnv) (st : DaemonState)
    (eventPath : String) : List String × (String → Bool) :=
  if !st.active then ([], st.locked)
  else Daemon.handleFileEvent env st.cfg st.locked eventPath

/-- The filesystem view `locker.Lock` consults (locker.go lines 184–216):
symlink resolution (`none` = `EvalSymlinks` error, in which case the literal
path is used), `os.Stat` success, directory test, and the file list
`fileutil.CollectFilesRecursively` returns for a directory. -/
structure LockerFS where
  resolve : String → Option String
  statOk : String → Bool
  isDir : String → Bool
  filesUnder : String → List String

/-- `locker.Lock` (locker.go lines 184–216), abstracted to the list of
filesystem entries it hands to the single-file primitive `lockFile`: resolve
symlinks, fail when the resolved path does not stat, and for a directory pass
every file collected recursively beneath it, for anything else the resolved
path itself. -/
def lockCalls (fs : LockerFS) (path : String) : Except String (List String) :=
  let realPath :=
    match fs.resolve path with
    | some r => r
    | none => path
  if fs.statOk realPath then
    if fs.isDir realPath then Except.ok (fs.filesUnder realPath)
    else Except.ok [realPath]
  else Except.error realPath

/-- Go string slicing `s[:n]`: defined only when `n ≤ len(s)`, otherwise the
program panics with a slice-bounds violation (`none`). -/
def goStringSlice (s : String) (n : Nat) : Option String :=
  if n ≤ s.data.length then some (String.mk (s.data.take n)) else none

/-- `isLockedLinux` (locker.go lines 375–397 and, identically, 611–633).
`lsattrResult` is `some output` when `lsattr` ran and produced `output`,
`none` when it failed (then the permission fallback runs on `statPerm`, the
`os.Stat` result).  The overall result is `none` for a runtime panic, `some
(Except.ok b)` for a `(b, nil)` return, and `some (Except.error _)` for an
error return. -/
def isLockedLinux (lsattrResult : Option String) (statPerm : Option Nat) :
    Option (Except String Bool) :=
  match lsattrResult with
  | none =>
    match statPerm with
    | none => some (Except.error "stat failed")
    | some perm => some (Except.ok (perm == 0o444))
  | some output =>
    if output.data.length ≥ 5 then
      match goStringSlice output 20 with
      | none => none
      | some front => some (Except.ok (front.data.contains 'i'))
    else some (Except.ok false)

/-- The removal test of `CleanExpiredExcludes`' loop body: an entry is
deleted when its expiry fails to parse or `expiry.Before(now)`. -/
def shouldRemove (parseTime : String → Option Int) (now : Int)
    (e : String × String) : Bool :=
  match parseTime e.2 with
  | none => true
  | some expiry => decide (expiry < now)

/-! Concrete instantiations, used only to evaluate the theorems above on
closed inputs (witnesses and counterexamples). -/

/-- A cron `Next` function: triggers every minute on the minute. -/
def cronNextW : Int → Int :=
  fun t => t + 60

/-- A cron parser that accepts every expression with schedule `cronNextW`. -/
def parseCronW : String → Option (Int → Int) :=
  fun _ => some cronNextW

/-- A cron parser that rejects every expression, as the robfig parser does on
a syntactically invalid one. -/
def parseCronNone : String → Option (Int → Int) :=
  fun _ => none

/-- A timestamp formatter matching `decToInt` on the instant 300. -/
def fmtW : Int → String :=
  fun t => if t = 300 then "300" else ""

/-- A config with the spec's `08:00–17:00` simple range and one managed path. -/
def cfgSimple : Config :=
  ⟨["/home/u/.vimrc"], "08:00", "17:00", "", 60, []⟩

/-- A config whose start time does not parse. -/
def cfgBadStart : Config :=
  ⟨[], "banana", "17:00", "", 60, []⟩

/-- A config whose end time fails Go's hour range check. -/
def cfgBadEnd : Config :=
  ⟨[], "08:00", "24:00", "", 60, []⟩

/-- A config in cron mode. -/
def cfgCron : Config :=
  ⟨[], "", "", "not a cron expr", 60, []⟩

/-- An environment in which every path exists and every primitive succeeds;
the clock reads Monday 1970-01-05 08:00:00 UTC (epoch 374400). -/
def envW : DaemonEnv :=
  ⟨fun _ => true, fun _ => true, fun _ => true, decToInt, parseCronW,
    374400, "/home/u/.config/configlock", "/home/u/.config/configlock/config.json"⟩

/-- An environment in which every path exists but unlocking path `a` fails
(its primitive and its chmod fallback both fail). -/
def envC2 : DaemonEnv :=
  ⟨fun _ => true, fun _ => true, fun p => !(p == "a"), decToInt, parseCronW,
    374400, "/home/u/.config/configlock", "/home/u/.config/configlock/config.json"⟩

/-- A two-path config for the shutdown claims. -/
def cfgC2 : Config :=
  ⟨["a", "b"], "08:00", "17:00", "", 60, []⟩

/-- The spec's event-mapping example: managed paths `~/.config/nvim` and
`~/.zshrc`. -/
def cfgEvent : Config :=
  ⟨["/home/u/.config/nvim", "/home/u/.zshrc"], "08:00", "17:00", "", 60, []⟩

/-- A filesystem in which `d` is a directory holding files `d/a` and `d/b`. -/
def fsC9 : LockerFS :=
  ⟨fun p => some p, fun _ => true, fun p => p == "d",
    fun p => if p == "d" then ["d/a", "d/b"] else []⟩

end Configlock

deriving instance DecidableEq for Except

namespace Configlock

/-- Helper: `mapLookup` finds the value `mapInsert` just stored. -/
theorem mapLookup_mapInsert_self (k v : String) :
    ∀ m : List (String × String), mapLookup k (mapInsert k v m) = some v := by
  intro m
  induction m with
  | nil => simp [mapInsert, mapLookup]
  | cons e rest ih =>
    by_cases h : e.1 = k
    · simp [mapInsert, h, mapLookup]
    · simp [mapInsert, h, mapLookup, ih]

/-- Helper: a key that is not among the keys of the list has no entry. -/
theorem mapLookup_eq_none_of_not_mem (k : String) :
    ∀ m : List (String × String), k ∉ m.map Prod.fst → mapLookup k m = none := by
  intro m
  induction m with
  | nil => intro; rfl
  | cons e rest ih =>
    intro h
    simp only [List.map_cons, List.mem_cons, not_or] at h
    unfold mapLookup
    rw [if_neg (fun he : e.1 = k => h.1 he.symm)]
    exact ih h.2

/-- Helper: a point update leaves every other path alone. -/
theorem setLock_apply_ne (locked : String → Bool) (p : String) (b : Bool)
    (q : String) (h : q ≠ p) : setLock locked p b q = locked q :=
  if_neg h

/-- Helper: a point update hits its own path. -/
theorem setLock_apply_self (locked : String → Bool) (p : String) (b : Bool) :
    setLock locked p b p = b :=
  if_pos rfl

/-- Helper: a `locker.Lock` call never clears a lock bit. -/
theorem lockerLock_preserves_true (env : DaemonEnv) (locked : String → Bool)
    (p q : String) (h : locked q = true) : lockerLock env locked p q = true := by
  unfold lockerLock
  split
  · by_cases hqp : q = p
    · subst hqp
      exact setLock_apply_self locked q true
    · rw [setLock_apply_ne locked p true q hqp]
      exact h
  · exact h

/-- Helper: a `locker.Unlock` call never sets a lock bit. -/
theorem lockerUnlock_preserves_false (env : DaemonEnv) (locked : String → Bool)
    (p q : String) (h : locked q = false) :
    lockerUnlock env locked p q = false := by
  unfold lockerUnlock
  split
  · by_cases hqp : q = p
    · subst hqp
      exact setLock_apply_self locked q false
    · rw [setLock_apply_ne locked p false q hqp]
      exact h
  · exact h

/-- Helper: `locker.Unlock` on an existing path whose primitive (or fallback)
succeeds clears that path's lock bit. -/
theorem lockerUnlock_unlocks (env : DaemonEnv) (locked : String → Bool)
    (p : String) (hex : env.fsExists p = true) (hok : env.unlockOk p = true) :
    lockerUnlock env locked p p = false := by
  unfold lockerUnlock
  rw [hex, hok]
  simp only [Bool.and_self, if_pos]
  exact setLock_apply_self locked p false

/-- Helper: `Daemon.lockPath` never clears a lock bit. -/
theorem lockPath_preserves_true (env : DaemonEnv) (cfg : Config)
    (locked : String → Bool) (p q : String) (h : locked q = true) :
    Daemon.lockPath env cfg locked p q = true := by
  unfold Daemon.lockPath
  split
  · exact h
  · split
    · exact h
    · exact lockerLock_preserves_true env locked p q h

/-- Helper: `Daemon.lockPath p` changes no path other than `p`. -/
theorem lockPath_apply_ne (env : DaemonEnv) (cfg : Config)
    (locked : String → Bool) (p q : String) (h : q ≠ p) :
    Daemon.lockPath env cfg locked p q = locked q := by
  unfold Daemon.lockPath lockerLock
  split
  · rfl
  · split
    · rfl
    · split
      · exact setLock_apply_ne locked p true q h
      · rfl

/-- Helper: `Daemon.lockPath` on an existing, non-excluded path whose lock
primitive (or fallback) succeeds sets that path's lock bit. -/
theorem lockPath_locks (env : DaemonEnv) (cfg : Config)
    (locked : String → Bool) (p : String) (hex : env.fsExists p = true)
    (hexcl : isTemporarilyExcluded env.parseTime env.now cfg.tempExcludes p = false)
    (hok : env.lockOk p = true) :
    Daemon.lockPath env cfg locked p p = true := by
  unfold Daemon.lockPath lockerLock
  rw [hex, hexcl, hok]
  simp only [Bool.not_true, Bool.false_eq_true, if_false, Bool.and_self, if_pos]
  exact setLock_apply_self locked p true

/-- Helper: the enforcement loop never clears a lock bit. -/
theorem enforceLoop_preserves_true (env : DaemonEnv) (cfg : Config) :
    ∀ (ps : List String) (locked : String → Bool) (q : String),
      locked q = true → enforceLoop env cfg ps locked q = true := by
  intro ps
  induction ps with
  | nil => intro locked q h; exact h
  | cons p rest ih =>
    intro locked q h
    unfold enforceLoop
    apply ih
    split
    · exact h
    · exact lockPath_preserves_true env cfg locked p q h

/-- Helper: the enforcement loop locks every listed path that is not
excluded, exists, and whose primitive succeeds. -/
theorem enforceLoop_locks (env : DaemonEnv) (cfg : Config) (p : String)
    (hexcl : isTemporarilyExcluded env.parseTime env.now cfg.tempExcludes p = false)
    (hex : env.fsExists p = true) (hok : env.lockOk p = true) :
    ∀ (ps : List String) (locked : String → Bool),
      p ∈ ps → enforceLoop env cfg ps locked p = true := by
  intro ps
  induction ps with
  | nil => intro locked h; cases h
  | cons a rest ih =>
    intro locked hmem
    unfold enforceLoop
    rcases List.mem_cons.mp hmem with h | h
    · subst h
      apply enforceLoop_preserves_true
      rw [if_neg (by simp [hexcl])]
      exact lockPath_locks env cfg locked p hex hexcl hok
    · exact ih _ h

/-- Helper: `is_excluded` skips a leading entry with a different key. -/
theorem isTemporarilyExcluded_cons_ne (parseTime : String → Option Int)
    (now : Int) (e : String × String) (l : List (String × String))
    (p : String) (h : e.1 ≠ p) :
    isTemporarilyExcluded parseTime now (e :: l) p
      = isTemporarilyExcluded parseTime now l p := by
  unfold isTemporarilyExcluded
  simp only [mapLookup, if_neg h]

/-- Helper: `is_excluded` is false when the key is absent. -/
theorem isTemporarilyExcluded_of_lookup_none (parseTime : String → Option Int)
    (now : Int) (l : List (String × String)) (p : String)
    (h : mapLookup p l = none) :
    isTemporarilyExcluded parseTime now l p = false := by
  unfold isTemporarilyExcluded
  rw [h]

/-- Helper: cleaning expired exclusions cannot make a non-excluded path
excluded (the Go map has unique keys, hence the `Nodup` hypothesis on the
association-list embedding). -/
theorem isTemporarilyExcluded_cleaned_false (parseTime : String → Option Int)
    (now : Int) :
    ∀ (m : List (String × String)) (p : String),
      (m.map Prod.fst).Nodup →
      isTemporarilyExcluded parseTime now m p = false →
      isTemporarilyExcluded parseTime now
        (cleanExpiredExcludes parseTime now m).2 p = false := by
  intro m
  induction m with
  | nil => intro p _ _; rfl
  | cons e rest ih =>
    intro p hnodup h
    rw [show (e :: rest).map Prod.fst = e.1 :: rest.map Prod.fst from rfl]
      at hnodup
    have hnodup' : (rest.map Prod.fst).Nodup := (List.nodup_cons.mp hnodup).2
    have hkey : e.1 ∉ rest.map Prod.fst := (List.nodup_cons.mp hnodup).1
    by_cases hep : e.1 = p
    · have hrest : isTemporarilyExcluded parseTime now rest p = false := by
        apply isTemporarilyExcluded_of_lookup_none
        apply mapLookup_eq_none_of_not_mem
        rw [← hep]
        exact hkey
      have hlook : mapLookup p (e :: rest) = some e.2 := by
        unfold mapLookup
        rw [if_pos hep]
      cases hp : parseTime e.2 with
      | none =>
        have hd : (cleanExpiredExcludes parseTime now (e :: rest)).2
            = (cleanExpiredExcludes parseTime now rest).2 := by
          simp only [cleanExpiredExcludes, hp]
        rw [hd]
        exact ih p hnodup' hrest
      | some expiry =>
        have hexp : ¬ now < expiry := by
          have h2 := h
          simp only [isTemporarilyExcluded, hlook, hp,
            decide_eq_false_iff_not] at h2
          exact h2
        by_cases hlt : expiry < now
        · have hd : (cleanExpiredExcludes parseTime now (e :: rest)).2
              = (cleanExpiredExcludes parseTime now rest).2 := by
            simp only [cleanExpiredExcludes, hp, if_pos hlt]
          rw [hd]
          exact ih p hnodup' hrest
        · have hd : (cleanExpiredExcludes parseTime now (e :: rest)).2
              = e :: (cleanExpiredExcludes parseTime now rest).2 := by
            simp only [cleanExpiredExcludes, hp, if_neg hlt]
          rw [hd]
          have hl2 : mapLookup p (e :: (cleanExpiredExcludes parseTime now rest).2)
              = some e.2 := by
            unfold mapLookup
            rw [if_pos hep]
          simp only [isTemporarilyExcluded, hl2, hp, decide_eq_false_iff_not]
          exact hexp
    · have hrest : isTemporarilyExcluded parseTime now rest p = false := by
        rw [← isTemporarilyExcluded_cons_ne parseTime now e rest p hep]
        exact h
      have htail := ih p hnodup' hrest
      cases hp : parseTime e.2 with
      | none =>
        have hd : (cleanExpiredExcludes parseTime now (e :: rest)).2
            = (cleanExpiredExcludes parseTime now rest).2 := by
          simp only [cleanExpiredExcludes, hp]
        rw [hd]
        exact htail
      | some expiry =>
        by_cases hlt : expiry < now
        · have hd : (cleanExpiredExcludes parseTime now (e :: rest)).2
              = (cleanExpiredExcludes parseTime now rest).2 := by
            simp only [cleanExpiredExcludes, hp, if_pos hlt]
          rw [hd]
          exact htail
        · have hd : (cleanExpiredExcludes parseTime now (e :: rest)).2
              = e :: (cleanExpiredExcludes parseTime now rest).2 := by
            simp only [cleanExpiredExcludes, hp, if_neg hlt]
          rw [hd]
          rw [isTemporarilyExcluded_cons_ne parseTime now e _ p hep]
          exact htail

/-- C1: after one full enforcement sweep (`Daemon.enforce`, with the config
reload succeeding), every managed path that lies in the enforcement window's
hypothesis, is not temporarily excluded, exists on disk, and whose lock
primitive or fallback succeeds, ends up locked. -/
theorem enforce_locks_eligible_path (env : DaemonEnv) (cfg : Config)
    (locked : String → Bool) (p : String)
    (hnodup : (cfg.tempExcludes.map Prod.fst).Nodup)
    (hmem : p ∈ cfg.lockedPaths)
    (hwin : isWithinWorkHours env.parseCron cfg env.now = true)
    (hexcl : isTemporarilyExcluded env.parseTime env.now cfg.tempExcludes p = false)
    (hex : env.fsExists p = true) (hok : env.lockOk p = true) :
    Daemon.enforce env (some cfg) locked p = true := by
  unfold Daemon.enforce
  exact enforceLoop_locks env _ p
    (isTemporarilyExcluded_cleaned_false env.parseTime env.now
      cfg.tempExcludes p hnodup hexcl) hex hok cfg.lockedPaths locked hmem

/-- Witness for C1: inside the Monday 08:00–17:00 window, a sweep over the
single managed path `/home/u/.vimrc` (existing, not excluded, primitive
succeeding) leaves it locked starting from a fully unlocked state. -/
theorem enforce_locks_eligible_path_witness :
    Daemon.enforce envW (some cfgSimple) (fun _ => false) "/home/u/.vimrc"
      = true :=
  enforce_locks_eligible_path envW cfgSimple (fun _ => false) "/home/u/.vimrc"
    (by decide) (by decide) (by decide) (by decide) (by decide) (by decide)

/-- C3: in cron mode, for every timestamp and every parseable cron expression
(one the parser maps to a schedule with trigger function `next`),
`is_within_window(now)` holds iff the next trigger computed from one minute
before `now` rounded down to the minute is at-or-before that rounded-down
minute — the window is armed exactly for the minute following each trigger. -/
theorem isWithinCronSchedule_armed_minute_iff
    (parseCron : String → Option (Int → Int)) (expr : String)
    (next : Int → Int) (now : Int) (hp : parseCron expr = some next) :
    isWithinCronSchedule parseCron expr now = true ↔
      next (roundToMinute now - 60) ≤ roundToMinute now := by
  unfold isWithinCronSchedule
  rw [hp]
  simp [not_lt]

/-- Witness for C3: a schedule triggering every minute is within the window
at epoch second 125 (whose minute rounds down to 120). -/
theorem isWithinCronSchedule_armed_minute_iff_witness :
    parseCronW "0 8 * * 1-5" = some cronNextW ∧
      isWithinCronSchedule parseCronW "0 8 * * 1-5" 125 = true :=
  ⟨rfl, (isWithinCronSchedule_armed_minute_iff parseCronW "0 8 * * 1-5"
    cronNextW 125 rfl).mpr (by decide)⟩

/-- C4: in simple-range mode (empty cron schedule) with well-formed start and
end times, `is_within_window(now)` holds iff the weekday of `now` is neither
Saturday (6) nor Sunday (0) and `start ≤ time_of_day(now) < end` — start
inclusive, end exclusive. -/
theorem isWithinWorkHours_simple_range_iff
    (parseCron : String → Option (Int → Int)) (c : Config) (now : Int)
    (sh sm eh em : Nat) (hcron : c.cronSchedule = "")
    (hs : parseClock c.startTime = some (sh, sm))
    (he : parseClock c.endTime = some (eh, em)) :
    isWithinWorkHours parseCron c now = true ↔
      (weekdayOf now ≠ 6 ∧ weekdayOf now ≠ 0) ∧
        ((sh * 60 + sm : Int) ≤ minutesOfDay now ∧
          minutesOfDay now < (eh * 60 + em : Int)) := by
  unfold isWithinWorkHours
  rw [if_neg (show ¬(c.cronSchedule ≠ "") by simp [hcron])]
  rw [hs, he]
  by_cases hw : weekdayOf now = 6 ∨ weekdayOf now = 0
  · rw [if_pos hw]
    simp only [Bool.false_eq_true, false_iff]
    rintro ⟨⟨h6, h0⟩, -⟩
    rcases hw with h | h
    · exact h6 h
    · exact h0 h
  · rw [if_neg hw]
    push_neg at hw
    simp [hw.1, hw.2]

/-- Witness for C4: with range `08:00–17:00`, the window is open at Monday
08:00:00 (epoch 374400), closed at Monday 17:00:00 (epoch 406800), and closed
at Saturday 08:00:00 (epoch 201600). -/
theorem isWithinWorkHours_simple_range_iff_witness :
    isWithinWorkHours parseCronW cfgSimple 374400 = true ∧
      isWithinWorkHours parseCronW cfgSimple 406800 = false ∧
      isWithinWorkHours parseCronW cfgSimple 201600 = false := by
  refine ⟨(isWithinWorkHours_simple_range_iff parseCronW cfgSimple 374400
    8 0 17 0 rfl rfl rfl).mpr (by decide), ?_, ?_⟩
  · cases hb : isWithinWorkHours parseCronW cfgSimple 406800
    · rfl
    · exact absurd ((isWithinWorkHours_simple_range_iff parseCronW cfgSimple
        406800 8 0 17 0 rfl rfl rfl).mp hb) (by decide)
  · cases hb : isWithinWorkHours parseCronW cfgSimple 201600
    · rfl
    · exact absurd ((isWithinWorkHours_simple_range_iff parseCronW cfgSimple
        201600 8 0 17 0 rfl rfl rfl).mp hb) (by decide)

/-- C5: a malformed schedule makes the evaluator report "outside the window"
on every input instead of raising: in simple-range mode an unparseable start
or end time forces `false`, and in cron mode an expression the cron parser
rejects forces `false`.  (The embedded evaluator is a total function into
`Bool`, mirroring that `IsWithinWorkHours` returns no error.) -/
theorem isWithinWorkHours_malformed_schedule_false
    (parseCron : String → Option (Int → Int)) (c : Config) (now : Int) :
    (c.cronSchedule = "" →
      (parseClock c.startTime = none ∨ parseClock c.endTime = none) →
      isWithinWorkHours parseCron c now = false) ∧
    (c.cronSchedule ≠ "" → parseCron c.cronSchedule = none →
      isWithinWorkHours parseCron c now = false) := by
  constructor
  · intro hcron hbad
    unfold isWithinWorkHours
    rw [if_neg (show ¬(c.cronSchedule ≠ "") by simp [hcron])]
    by_cases hw : weekdayOf now = 6 ∨ weekdayOf now = 0
    · rw [if_pos hw]
    · rw [if_neg hw]
      rcases hbad with h | h
      · rw [h]
      · cases hs : parseClock c.startTime with
        | none => rfl
        | some st => rw [h]
  · intro hcron hbad
    unfold isWithinWorkHours
    rw [if_pos hcron]
    unfold isWithinCronSchedule
    rw [hbad]

/-- Witness for C5: a non-time start string, an hour-range violation in the
end string, and a rejected cron expression each force `false` (evaluated at
Monday 08:00, an instant inside the would-be window). -/
theorem isWithinWorkHours_malformed_schedule_false_witness :
    isWithinWorkHours parseCronNone cfgBadStart 374400 = false ∧
      isWithinWorkHours parseCronNone cfgBadEnd 374400 = false ∧
      isWithinWorkHours parseCronNone cfgCron 374400 = false :=
  ⟨(isWithinWorkHours_malformed_schedule_false parseCronNone cfgBadStart
      374400).1 rfl (Or.inl (by decide)),
    (isWithinWorkHours_malformed_schedule_false parseCronNone cfgBadEnd
      374400).1 rfl (Or.inr (by decide)),
    (isWithinWorkHours_malformed_schedule_false parseCronNone cfgCron
      374400).2 (by decide) rfl⟩

/-- C6: `is_excluded` is false when the path has no entry, when the stored
expiry fails to parse, and when the expiry is at-or-before `now`; `add`
stores `now + minutes` (formatted) under the path, overwriting any existing
entry, and while the round-tripped expiry lies strictly in the future the
path is excluded. -/
theorem isTemporarilyExcluded_add_spec
    (parseTime : String → Option Int) (fmtTime : Int → String)
    (m : List (String × String)) (p : String) (now addedAt dur : Int) :
    (mapLookup p m = none → isTemporarilyExcluded parseTime now m p = false) ∧
    (∀ s, mapLookup p m = some s → parseTime s = none →
      isTemporarilyExcluded parseTime now m p = false) ∧
    (∀ s expiry, mapLookup p m = some s → parseTime s = some expiry →
      expiry ≤ now → isTemporarilyExcluded parseTime now m p = false) ∧
    (mapLookup p (addTempExclude fmtTime addedAt m p dur) =
      some (fmtTime (addedAt + dur * 60))) ∧
    (∀ t, parseTime (fmtTime (addedAt + dur * 60)) = some (addedAt + dur * 60) →
      t < addedAt + dur * 60 →
      isTemporarilyExcluded parseTime t (addTempExclude fmtTime addedAt m p dur) p
        = true) := by
  refine ⟨?_, ?_, ?_, ?_, ?_⟩
  · intro h
    simp [isTemporarilyExcluded, h]
  · intro s hs hparse
    simp [isTemporarilyExcluded, hs, hparse]
  · intro s expiry hs hparse hle
    simp only [isTemporarilyExcluded, hs, hparse, decide_eq_false_iff_not,
      not_lt]
    exact hle
  · exact mapLookup_mapInsert_self p (fmtTime (addedAt + dur * 60)) m
  · intro t hrt hlt
    simp only [isTemporarilyExcluded, addTempExclude,
      mapLookup_mapInsert_self, hrt, decide_eq_true_eq]
    exact hlt

/-- Witness for C6: starting from an empty exclusion map at time 0,
`add("/home/u/.vimrc", 5)` stores expiry 300; the path is not excluded
before the add, is excluded at times 0 and 299, and is no longer excluded at
time 300. -/
theorem isTemporarilyExcluded_add_spec_witness :
    isTemporarilyExcluded decToInt 0 [] "/home/u/.vimrc" = false ∧
      mapLookup "/home/u/.vimrc" (addTempExclude fmtW 0 [] "/home/u/.vimrc" 5)
        = some "300" ∧
      isTemporarilyExcluded decToInt 299
        (addTempExclude fmtW 0 [] "/home/u/.vimrc" 5) "/home/u/.vimrc" = true ∧
      isTemporarilyExcluded decToInt 300
        (addTempExclude fmtW 0 [] "/home/u/.vimrc" 5) "/home/u/.vimrc" = false := by
  have h := isTemporarilyExcluded_add_spec decToInt fmtW [] "/home/u/.vimrc" 0 0 5
  refine ⟨h.1 rfl, by decide, ?_, ?_⟩
  · exact h.2.2.2.2 299 (by decide) (by decide)
  · exact (isTemporarilyExcluded_add_spec decToInt fmtW
      (addTempExclude fmtW 0 [] "/home/u/.vimrc" 5) "/home/u/.vimrc"
      300 0 5).2.2.1 "300" 300 (by decide) (by decide) (by decide)

/-- Helper: the shutdown loop attempts an unlock on every listed path, in
order, whatever the per-path outcomes are. -/
theorem shutdownLoop_attempts (env : DaemonEnv) :
    ∀ (ps : List String) (locked : String → Bool),
      (shutdownLoop env ps locked).1 = ps := by
  intro ps
  induction ps with
  | nil => intro locked; rfl
  | cons p rest ih =>
    intro locked
    unfold shutdownLoop
    rw [ih]

/-- Helper: the shutdown loop never sets a lock bit. -/
theorem shutdownLoop_preserves_false (env : DaemonEnv) :
    ∀ (ps : List String) (locked : String → Bool) (q : String),
      locked q = false → (shutdownLoop env ps locked).2 q = false := by
  intro ps
  induction ps with
  | nil => intro locked q h; exact h
  | cons p rest ih =>
    intro locked q h
    unfold shutdownLoop
    exact ih _ q (lockerUnlock_preserves_false env locked p q h)

/-- Helper: the shutdown loop clears the lock bit of every listed path that
exists and whose unlock primitive (or fallback) succeeds. -/
theorem shutdownLoop_unlocks (env : DaemonEnv) (p : String)
    (hex : env.fsExists p = true) (hok : env.unlockOk p = true) :
    ∀ (ps : List String) (locked : String → Bool),
      p ∈ ps → (shutdownLoop env ps locked).2 p = false := by
  intro ps
  induction ps with
  | nil => intro locked h; cases h
  | cons a rest ih =>
    intro locked hmem
    unfold shutdownLoop
    rcases List.mem_cons.mp hmem with h | h
    · subst h
      exact shutdownLoop_preserves_false env rest _ p
        (lockerUnlock_unlocks env locked p hex hok)
    · exact ih _ h

/-- Counterexample for C2: when the unlock of managed path `a` fails (its
primitive and fallback both fail) while `a` exists on disk, the shutdown
leaves `is_locked(a)` true — contradicting the claim that after the
terminate signal is processed `is_locked(p)` is false for every managed path
that exists on disk.  (`b`'s unlock succeeds and is still attempted.) -/
theorem gracefulShutdown_failed_unlock_leaves_locked :
    ("a" ∈ cfgC2.lockedPaths ∧ envC2.fsExists "a" = true ∧
        envC2.unlockOk "a" = false) ∧
      (Daemon.handleTermSignal envC2 ⟨cfgC2, fun _ => true, false⟩).1
        = ["a", "b"] ∧
      (Daemon.handleTermSignal envC2 ⟨cfgC2, fun _ => true, false⟩).2 "a"
        = true := by
  decide

/-- C2 (amended): on a terminate or interrupt signal the daemon
unconditionally attempts to unlock every managed path — the handling does not
consult the Active/Inactive flag, the attempted list is the whole managed
list regardless of per-path failures — and afterwards `is_locked(p)` is false
for every managed path that exists on disk *whose unlock primitive or
fallback succeeded*. -/
theorem gracefulShutdown_unlocks_attempted (env : DaemonEnv) (cfg : Config)
    (locked : String → Bool) :
    (∀ a b : Bool,
      Daemon.handleTermSignal env ⟨cfg, locked, a⟩
        = Daemon.handleTermSignal env ⟨cfg, locked, b⟩) ∧
    (Daemon.gracefulShutdown env cfg locked).1 = cfg.lockedPaths ∧
    (∀ p, p ∈ cfg.lockedPaths → env.fsExists p = true →
      env.unlockOk p = true →
      (Daemon.gracefulShutdown env cfg locked).2 p = false) := by
  refine ⟨fun a b => rfl, shutdownLoop_attempts env cfg.lockedPaths locked, ?_⟩
  intro p hmem hex hok
  exact shutdownLoop_unlocks env p hex hok cfg.lockedPaths locked hmem

/-- Witness for C2 (amended): with path `a`'s unlock failing and `b`'s
succeeding, both unlocks are attempted (whether the daemon was Active or
Inactive) and `b` ends up unlocked. -/
theorem gracefulShutdown_unlocks_attempted_witness :
    Daemon.handleTermSignal envC2 ⟨cfgC2, fun _ => true, true⟩
        = Daemon.handleTermSignal envC2 ⟨cfgC2, fun _ => true, false⟩ ∧
      (Daemon.gracefulShutdown envC2 cfgC2 (fun _ => true)).1 = ["a", "b"] ∧
      (Daemon.gracefulShutdown envC2 cfgC2 (fun _ => true)).2 "b" = false := by
  have h := gracefulShutdown_unlocks_attempted envC2 cfgC2 (fun _ => true)
  exact ⟨h.1 true false, h.2.1, h.2.2 "b" (by decide) (by decide) (by decide)⟩

/-- Helper: the event loop notifies exactly the managed paths that are not
excluded and that the event path equals or lies under. -/
theorem eventLoop_fst (env : DaemonEnv) (cfg : Config) (ev : String) :
    ∀ (ps : List String) (locked : String → Bool),
      (eventLoop env cfg ev ps locked).1 = ps.filter (fun lp =>
        !(isTemporarilyExcluded env.parseTime env.now cfg.tempExcludes lp) &&
          (ev == lp || hasPre ev (lp ++ "/"))) := by
  intro ps
  induction ps with
  | nil => intro locked; rfl
  | cons lp rest ih =>
    intro locked
    unfold eventLoop
    cases hx : isTemporarilyExcluded env.parseTime env.now cfg.tempExcludes lp with
    | true => simp [ih, List.filter_cons, hx]
    | false =>
      cases hm : (ev == lp || hasPre ev (lp ++ "/")) with
      | true => simp [ih, List.filter_cons, hx, hm]
      | false => simp [ih, List.filter_cons, hx, hm]

/-- Helper: the event loop leaves every path the event does not name or lie
under untouched. -/
theorem eventLoop_apply_unmatched (env : DaemonEnv) (cfg : Config)
    (ev q : String) (hq : (ev == q || hasPre ev (q ++ "/")) = false) :
    ∀ (ps : List String) (locked : String → Bool),
      (eventLoop env cfg ev ps locked).2 q = locked q := by
  intro ps
  induction ps with
  | nil => intro locked; rfl
  | cons lp rest ih =>
    intro locked
    unfold eventLoop
    cases hx : isTemporarilyExcluded env.parseTime env.now cfg.tempExcludes lp with
    | true =>
      rw [if_pos rfl]
      exact ih locked
    | false =>
      rw [if_neg Bool.false_ne_true]
      cases hm : (ev == lp || hasPre ev (lp ++ "/")) with
      | true =>
        rw [if_pos rfl]
        have hne : q ≠ lp := by
          intro hqe
          subst hqe
          rw [hm] at hq
          cases hq
        rw [show ((lp :: (eventLoop env cfg ev rest
              (Daemon.lockPath env cfg locked lp)).1,
            (eventLoop env cfg ev rest
              (Daemon.lockPath env cfg locked lp)).2)).2
            = (eventLoop env cfg ev rest
              (Daemon.lockPath env cfg locked lp)).2 from rfl]
        rw [ih (Daemon.lockPath env cfg locked lp)]
        exact lockPath_apply_ne env cfg locked lp q hne
      | false =>
        rw [if_neg Bool.false_ne_true]
        exact ih locked

/-- Helper: the event loop never clears a lock bit. -/
theorem eventLoop_preserves_true (env : DaemonEnv) (cfg : Config) (ev : String) :
    ∀ (ps : List String) (locked : String → Bool) (q : String),
      locked q = true → (eventLoop env cfg ev ps locked).2 q = true := by
  intro ps
  induction ps with
  | nil => intro locked q h; exact h
  | cons lp rest ih =>
    intro locked q h
    unfold eventLoop
    cases hx : isTemporarilyExcluded env.parseTime env.now cfg.tempExcludes lp with
    | true =>
      rw [if_pos rfl]
      exact ih locked q h
    | false =>
      rw [if_neg Bool.false_ne_true]
      cases hm : (ev == lp || hasPre ev (lp ++ "/")) with
      | true =>
        rw [if_pos rfl]
        exact ih (Daemon.lockPath env cfg locked lp) q
          (lockPath_preserves_true env cfg locked lp q h)
      | false =>
        rw [if_neg Bool.false_ne_true]
        exact ih locked q h

/-- Helper: the event loop locks every listed path the event matches that is
not excluded, exists, and whose primitive succeeds. -/
theorem eventLoop_locks (env : DaemonEnv) (cfg : Config) (ev p : String)
    (hexcl : isTemporarilyExcluded env.parseTime env.now cfg.tempExcludes p = false)
    (hm : (ev == p || hasPre ev (p ++ "/")) = true)
    (hex : env.fsExists p = true) (hok : env.lockOk p = true) :
    ∀ (ps : List String) (locked : String → Bool),
      p ∈ ps → (eventLoop env cfg ev ps locked).2 p = true := by
  intro ps
  induction ps with
  | nil => intro locked h; cases h
  | cons a rest ih =>
    intro locked hmem
    unfold eventLoop
    rcases List.mem_cons.mp hmem with h | h
    · subst h
      rw [if_neg (by simp [hexcl]), if_pos hm]
      exact eventLoop_preserves_true env cfg ev rest _ p
        (lockPath_locks env cfg locked p hex hexcl hok)
    · cases hx : isTemporarilyExcluded env.parseTime env.now cfg.tempExcludes a with
      | true =>
        rw [if_pos rfl]
        exact ih locked h
      | false =>
        rw [if_neg Bool.false_ne_true]
        cases hma : (ev == a || hasPre ev (a ++ "/")) with
        | true =>
          rw [if_pos rfl]
          exact ih (Daemon.lockPath env cfg locked a) h
        | false =>
          rw [if_neg Bool.false_ne_true]
          exact ih locked h

/-- C8: while Active, a filesystem change event on the daemon's own config
file or directory (or anything beneath it) re-locks nothing and notifies
nobody; any other event notifies and re-locks exactly the managed paths the
event path equals or lies under (skipping excluded ones, with the lock
landing when the path exists and the primitive succeeds), touches no other
path; and events arriving while Inactive are ignored. -/
theorem handleFileEvent_event_mapping (env : DaemonEnv) (cfg : Config)
    (locked : String → Bool) (ev : String) :
    (∀ st : DaemonState, st.active = false →
      Daemon.onWatcherEvent env st ev = ([], st.locked)) ∧
    ((ev = env.configPath ∨ ev = env.configDir ∨
        hasPre ev (env.configDir ++ "/") = true) →
      Daemon.handleFileEvent env cfg locked ev = ([], locked)) ∧
    (ev ≠ env.configPath → ev ≠ env.configDir →
      hasPre ev (env.configDir ++ "/") = false →
      ((Daemon.handleFileEvent env cfg locked ev).1 = cfg.lockedPaths.filter
          (fun lp => !(isTemporarilyExcluded env.parseTime env.now
            cfg.tempExcludes lp) && (ev == lp || hasPre ev (lp ++ "/"))) ∧
        (∀ q, (ev == q || hasPre ev (q ++ "/")) = false →
          (Daemon.handleFileEvent env cfg locked ev).2 q = locked q) ∧
        (∀ p, p ∈ cfg.lockedPaths →
          isTemporarilyExcluded env.parseTime env.now cfg.tempExcludes p = false →
          (ev == p || hasPre ev (p ++ "/")) = true →
          env.fsExists p = true → env.lockOk p = true →
          (Daemon.handleFileEvent env cfg locked ev).2 p = true))) := by
  refine ⟨?_, ?_, ?_⟩
  · intro st h
    unfold Daemon.onWatcherEvent
    rw [h]
    rfl
  · intro h
    unfold Daemon.handleFileEvent
    have hc : (ev == env.configPath || ev == env.configDir ||
        hasPre ev (env.configDir ++ "/")) = true := by
      rcases h with h | h | h
      · simp [h]
      · simp [h]
      · simp [h]
    rw [if_pos hc]
  · intro h1 h2 h3
    have hc : (ev == env.configPath || ev == env.configDir ||
        hasPre ev (env.configDir ++ "/")) = false := by
      simp [beq_iff_eq, h1, h2, h3]
    have hd : Daemon.handleFileEvent env cfg locked ev
        = eventLoop env cfg ev cfg.lockedPaths locked := by
      unfold Daemon.handleFileEvent
      rw [if_neg (by simp [hc])]
    rw [hd]
    exact ⟨eventLoop_fst env cfg ev cfg.lockedPaths locked,
      fun q hq => eventLoop_apply_unmatched env cfg ev q hq cfg.lockedPaths locked,
      fun p hmem hexcl hm hex hok =>
        eventLoop_locks env cfg ev p hexcl hm hex hok cfg.lockedPaths locked hmem⟩

/-- Witness for C8: the spec's example.  A change event for
`/home/u/.config/nvim/init.lua` notifies and re-locks managed path
`/home/u/.config/nvim` but leaves `/home/u/.zshrc` untouched; the same event
is ignored while Inactive. -/
theorem handleFileEvent_event_mapping_witness :
    (Daemon.handleFileEvent envW cfgEvent (fun _ => false)
        "/home/u/.config/nvim/init.lua").1 = ["/home/u/.config/nvim"] ∧
      (Daemon.handleFileEvent envW cfgEvent (fun _ => false)
        "/home/u/.config/nvim/init.lua").2 "/home/u/.config/nvim" = true ∧
      (Daemon.handleFileEvent envW cfgEvent (fun _ => false)
        "/home/u/.config/nvim/init.lua").2 "/home/u/.zshrc" = false ∧
      Daemon.onWatcherEvent envW ⟨cfgEvent, fun _ => false, false⟩
        "/home/u/.config/nvim/init.lua" = ([], fun _ => false) := by
  have h := handleFileEvent_event_mapping envW cfgEvent (fun _ => false)
    "/home/u/.config/nvim/init.lua"
  obtain ⟨hinact, -, h3⟩ := h
  obtain ⟨hfst, hun, hlock⟩ := h3 (by decide) (by decide) (by decide)
  refine ⟨hfst.trans (by decide), ?_, ?_,
    hinact ⟨cfgEvent, fun _ => false, false⟩ rfl⟩
  · exact hlock "/home/u/.config/nvim" (by decide) (by decide) (by decide)
      (by decide) (by decide)
  · exact hun "/home/u/.zshrc" (by decide)

/-- Counterexample for C9: on a directory `d` holding files `d/a` and `d/b`,
`locker.Lock d` hands the single-entry primitive the files beneath `d` — it
recurses into the directory's contents instead of operating on the single
entry `d`. -/
theorem lockCalls_dir_recurses :
    fsC9.isDir "d" = true ∧ "d/a" ∈ fsC9.filesUnder "d" ∧
      lockCalls fsC9 "d" = Except.ok ["d/a", "d/b"] ∧
      lockCalls fsC9 "d" ≠ Except.ok ["d"] := by
  decide

/-- C9 (amended): only the per-file primitive (`lockFile`, `chattr` without
`-R`) operates on a single filesystem entry; the exported `Lock` itself
performs the directory recursion, handing the primitive every file collected
recursively beneath a directory argument and the resolved path alone for a
non-directory. -/
theorem lockCalls_dispatch (fs : LockerFS) (path realPath : String)
    (hres : fs.resolve path = some realPath)
    (hstat : fs.statOk realPath = true) :
    lockCalls fs path = Except.ok
      (if fs.isDir realPath then fs.filesUnder realPath else [realPath]) := by
  simp only [lockCalls, hres, hstat, if_true]
  split <;> rfl

/-- Witness for C9 (amended): `Lock` on directory `d` targets `d/a` and
`d/b`; on the plain file `f` it targets `f` itself. -/
theorem lockCalls_dispatch_witness :
    lockCalls fsC9 "d" = Except.ok ["d/a", "d/b"] ∧
      lockCalls fsC9 "f" = Except.ok ["f"] :=
  ⟨(lockCalls_dispatch fsC9 "d" "d" rfl rfl).trans (by decide),
    (lockCalls_dispatch fsC9 "f" "f" rfl rfl).trans (by decide)⟩

/-- C10: `isLockedLinux` slices `outputStr[:20]` behind a guard that only
checks `len(outputStr) >= 5`, so every `lsattr` output of length 5–19 drives
the function into a slice-bounds panic (`none`) instead of a `(bool, error)`
return. -/
theorem isLockedLinux_short_output_panics (out : String) (sp : Option Nat)
    (h5 : 5 ≤ out.data.length) (h20 : out.data.length < 20) :
    isLockedLinux (some out) sp = none := by
  have hg : goStringSlice out 20 = none := by
    unfold goStringSlice
    rw [if_neg (by omega)]
  simp only [isLockedLinux]
  rw [if_pos h5, hg]

/-- Witness for C10: the 5-byte output `----i` panics, while a full-length
`lsattr` line returns `(true, nil)` and a 4-byte output returns
`(false, nil)`. -/
theorem isLockedLinux_short_output_panics_witness :
    5 ≤ ("----i").data.length ∧ ("----i").data.length < 20 ∧
      isLockedLinux (some "----i") none = none ∧
      isLockedLinux (some "----i--------e----- /etc/hosts") (some 420)
        = some (Except.ok true) ∧
      isLockedLinux (some "----") none = some (Except.ok false) :=
  ⟨by decide, by decide,
    isLockedLinux_short_output_panics "----i" none (by decide) (by decide),
    by decide, by decide⟩

/-- Counterexample for C7: `CleanExpiredExcludes` also deletes an entry whose
stored expiry does not parse at all, so it does not remove "exactly the
entries whose expiry is strictly before now" and does not leave every other
entry unchanged: a map holding one unparseable entry comes back empty with
the cleaned flag set. -/
theorem cleanExpiredExcludes_removes_unparseable :
    cleanExpiredExcludes decToInt 0 [("p", "not-a-time")] = (true, []) ∧
      decToInt "not-a-time" = none := by
  decide

/-- C7 (amended): `clean_expired` removes exactly the entries whose expiry
fails to parse or is strictly before `now`, leaves every other entry
unchanged, and returns true iff at least one entry was removed. -/
theorem cleanExpiredExcludes_filter_spec
    (parseTime : String → Option Int) (now : Int)
    (m : List (String × String)) :
    (cleanExpiredExcludes parseTime now m).2 =
      m.filter (fun e => !shouldRemove parseTime now e) ∧
    ((cleanExpiredExcludes parseTime now m).1 = true ↔
      ∃ e ∈ m, shouldRemove parseTime now e = true) := by
  induction m with
  | nil => simp [cleanExpiredExcludes]
  | cons e rest ih =>
    cases hp : parseTime e.2 with
    | none =>
      have hd : cleanExpiredExcludes parseTime now (e :: rest)
          = (true, (cleanExpiredExcludes parseTime now rest).2) := by
        simp only [cleanExpiredExcludes, hp]
      rw [hd]
      refine ⟨by simpa [List.filter_cons, shouldRemove, hp] using ih.1, ?_, fun _ => rfl⟩
      intro _
      exact ⟨e, List.mem_cons_self e rest, by simp [shouldRemove, hp]⟩
    | some expiry =>
      by_cases hlt : expiry < now
      · have hd : cleanExpiredExcludes parseTime now (e :: rest)
            = (true, (cleanExpiredExcludes parseTime now rest).2) := by
          simp only [cleanExpiredExcludes, hp, if_pos hlt]
        rw [hd]
        refine ⟨by simpa [List.filter_cons, shouldRemove, hp, hlt] using ih.1,
          ?_, fun _ => rfl⟩
        intro _
        exact ⟨e, List.mem_cons_self e rest, by simp [shouldRemove, hp, hlt]⟩
      · have hd : cleanExpiredExcludes parseTime now (e :: rest)
            = ((cleanExpiredExcludes parseTime now rest).1,
              e :: (cleanExpiredExcludes parseTime now rest).2) := by
          simp only [cleanExpiredExcludes, hp, if_neg hlt]
        rw [hd]
        constructor
        · simp only [List.filter_cons]
          rw [if_pos (show (!shouldRemove parseTime now e) = true by
            simp [shouldRemove, hp, hlt])]
          rw [ih.1]
        · rw [show ((cleanExpiredExcludes parseTime now rest).1,
              e :: (cleanExpiredExcludes parseTime now rest).2).1
              = (cleanExpiredExcludes parseTime now rest).1 from rfl, ih.2]
          constructor
          · rintro ⟨a, ha, hra⟩
            exact ⟨a, List.mem_cons_of_mem e ha, hra⟩
          · rintro ⟨a, ha, hra⟩
            rcases List.mem_cons.mp ha with ha | ha
            · subst ha
              simp [shouldRemove, hp, hlt] at hra
            · exact ⟨a, ha, hra⟩

/-- Witness for C7 (amended): at time 301, an entry expiring at 300 is
removed and one expiring at 400 is kept, with the cleaned flag set; with no
expired entry nothing is removed and the flag stays false. -/
theorem cleanExpiredExcludes_filter_spec_witness :
    cleanExpiredExcludes decToInt 301 [("a", "300"), ("b", "400")]
        = (true, [("b", "400")]) ∧
      cleanExpiredExcludes decToInt 100 [("a", "300"), ("b", "400")]
        = (false, [("a", "300"), ("b", "400")]) := by
  decide

end Configlock

